import Mathlib

/-!
Verification of the secure-session and consent-protocol layer of the
`secret-service` Rust library, against its natural-language specification.

The development shallowly embeds the relevant source code:

* `src/session.rs` — Diffie-Hellman key exchange (`powm`, `Keypair::derive_shared`,
  `hkdf`) and the AES-128-CBC-PKCS7 `encrypt` / `decrypt` pair (feature
  `crypto-rust`, which delegates the block cipher to the `aes` crate; the block
  cipher is embedded here as standard FIPS-197 AES-128, which is what that
  crate computes).
* `src/util.rs` — `format_secret_zbus` (the secret codec) and `exec_prompt`
  (the consent prompt protocol).
* `src/item.rs`, `src/blocking/item.rs`, `src/blocking/mod.rs`, `src/lib.rs` —
  `Item::get_secret`, `Item::delete`, `lock_or_unlock`, `unlock_all`,
  `create_collection` prompt handling.

Randomness (`OsRng`) is modelled by passing the drawn bytes as explicit
function arguments; bus traffic is modelled by explicit event lists and by
action traces recording the calls a function performs.
-/

set_option maxRecDepth 40000

namespace SecretService

/-! ## Bytes

A `u8` is modelled as `Fin 256`. -/

abbrev Byte := Fin 256

theorem byte_xor_lt (a b : Byte) : a.val ^^^ b.val < 256 := by
  have h : a.val ^^^ b.val < 2 ^ 8 :=
    Nat.xor_lt_two_pow (lt_of_lt_of_le a.isLt (by norm_num))
      (lt_of_lt_of_le b.isLt (by norm_num))
  exact lt_of_lt_of_le h (by norm_num)

/-- Bitwise xor on bytes (Rust `^` on `u8`). -/
def bxor (a b : Byte) : Byte := ⟨a.val ^^^ b.val, byte_xor_lt a b⟩

theorem bxor_comm (a b : Byte) : bxor a b = bxor b a := by
  simp [bxor, Nat.xor_comm]

theorem bxor_assoc (a b c : Byte) : bxor (bxor a b) c = bxor a (bxor b c) := by
  simp [bxor, Nat.xor_assoc]

theorem bxor_left_comm (a b c : Byte) : bxor a (bxor b c) = bxor b (bxor a c) := by
  simp only [bxor]
  congr 1
  rw [← Nat.xor_assoc, Nat.xor_comm a.val b.val, Nat.xor_assoc]

theorem bxor_zero (a : Byte) : bxor a 0 = a := by
  simp [bxor, Fin.ext_iff]

theorem zero_bxor (a : Byte) : bxor 0 a = a := by
  simp [bxor, Fin.ext_iff]

theorem bxor_self (a : Byte) : bxor a a = 0 := by
  simp [bxor, Fin.ext_iff]

theorem bxor_cancel_left (a b : Byte) : bxor a (bxor a b) = b := by
  rw [← bxor_assoc, bxor_self, zero_bxor]

theorem bxor_cancel_right (a b : Byte) : bxor (bxor a b) b = a := by
  rw [bxor_assoc, bxor_self, bxor_zero]

/-! ## AES-128 block cipher (FIPS-197), as computed by the `aes` crate

`session.rs` delegates per-block encryption to `cbc::Encryptor<aes::Aes128>` /
`cbc::Decryptor<aes::Aes128>`; the `aes` crate implements standard AES-128.
The state is the usual 4x4 byte matrix in column-major order: flat index
`i` holds row `i % 4` of column `i / 4`, and the 16 input bytes fill the
state in flat order. -/

def sboxTable : List Nat := [
  0x63, 0x7c, 0x77, 0x7b, 0xf2, 0x6b, 0x6f, 0xc5, 0x30, 0x01, 0x67, 0x2b, 0xfe, 0xd7, 0xab, 0x76,
  0xca, 0x82, 0xc9, 0x7d, 0xfa, 0x59, 0x47, 0xf0, 0xad, 0xd4, 0xa2, 0xaf, 0x9c, 0xa4, 0x72, 0xc0,
  0xb7, 0xfd, 0x93, 0x26, 0x36, 0x3f, 0xf7, 0xcc, 0x34, 0xa5, 0xe5, 0xf1, 0x71, 0xd8, 0x31, 0x15,
  0x04, 0xc7, 0x23, 0xc3, 0x18, 0x96, 0x05, 0x9a, 0x07, 0x12, 0x80, 0xe2, 0xeb, 0x27, 0xb2, 0x75,
  0x09, 0x83, 0x2c, 0x1a, 0x1b, 0x6e, 0x5a, 0xa0, 0x52, 0x3b, 0xd6, 0xb3, 0x29, 0xe3, 0x2f, 0x84,
  0x53, 0xd1, 0x00, 0xed, 0x20, 0xfc, 0xb1, 0x5b, 0x6a, 0xcb, 0xbe, 0x39, 0x4a, 0x4c, 0x58, 0xcf,
  0xd0, 0xef, 0xaa, 0xfb, 0x43, 0x4d, 0x33, 0x85, 0x45, 0xf9, 0x02, 0x7f, 0x50, 0x3c, 0x9f, 0xa8,
  0x51, 0xa3, 0x40, 0x8f, 0x92, 0x9d, 0x38, 0xf5, 0xbc, 0xb6, 0xda, 0x21, 0x10, 0xff, 0xf3, 0xd2,
  0xcd, 0x0c, 0x13, 0xec, 0x5f, 0x97, 0x44, 0x17, 0xc4, 0xa7, 0x7e, 0x3d, 0x64, 0x5d, 0x19, 0x73,
  0x60, 0x81, 0x4f, 0xdc, 0x22, 0x2a, 0x90, 0x88, 0x46, 0xee, 0xb8, 0x14, 0xde, 0x5e, 0x0b, 0xdb,
  0xe0, 0x32, 0x3a, 0x0a, 0x49, 0x06, 0x24, 0x5c, 0xc2, 0xd3, 0xac, 0x62, 0x91, 0x95, 0xe4, 0x79,
  0xe7, 0xc8, 0x37, 0x6d, 0x8d, 0xd5, 0x4e, 0xa9, 0x6c, 0x56, 0xf4, 0xea, 0x65, 0x7a, 0xae, 0x08,
  0xba, 0x78, 0x25, 0x2e, 0x1c, 0xa6, 0xb4, 0xc6, 0xe8, 0xdd, 0x74, 0x1f, 0x4b, 0xbd, 0x8b, 0x8a,
  0x70, 0x3e, 0xb5, 0x66, 0x48, 0x03, 0xf6, 0x0e, 0x61, 0x35, 0x57, 0xb9, 0x86, 0xc1, 0x1d, 0x9e,
  0xe1, 0xf8, 0x98, 0x11, 0x69, 0xd9, 0x8e, 0x94, 0x9b, 0x1e, 0x87, 0xe9, 0xce, 0x55, 0x28, 0xdf,
  0x8c, 0xa1, 0x89, 0x0d, 0xbf, 0xe6, 0x42, 0x68, 0x41, 0x99, 0x2d, 0x0f, 0xb0, 0x54, 0xbb, 0x16]

def invSboxTable : List Nat := [
  0x52, 0x09, 0x6a, 0xd5, 0x30, 0x36, 0xa5, 0x38, 0xbf, 0x40, 0xa3, 0x9e, 0x81, 0xf3, 0xd7, 0xfb,
  0x7c, 0xe3, 0x39, 0x82, 0x9b, 0x2f, 0xff, 0x87, 0x34, 0x8e, 0x43, 0x44, 0xc4, 0xde, 0xe9, 0xcb,
  0x54, 0x7b, 0x94, 0x32, 0xa6, 0xc2, 0x23, 0x3d, 0xee, 0x4c, 0x95, 0x0b, 0x42, 0xfa, 0xc3, 0x4e,
  0x08, 0x2e, 0xa1, 0x66, 0x28, 0xd9, 0x24, 0xb2, 0x76, 0x5b, 0xa2, 0x49, 0x6d, 0x8b, 0xd1, 0x25,
  0x72, 0xf8, 0xf6, 0x64, 0x86, 0x68, 0x98, 0x16, 0xd4, 0xa4, 0x5c, 0xcc, 0x5d, 0x65, 0xb6, 0x92,
  0x6c, 0x70, 0x48, 0x50, 0xfd, 0xed, 0xb9, 0xda, 0x5e, 0x15, 0x46, 0x57, 0xa7, 0x8d, 0x9d, 0x84,
  0x90, 0xd8, 0xab, 0x00, 0x8c, 0xbc, 0xd3, 0x0a, 0xf7, 0xe4, 0x58, 0x05, 0xb8, 0xb3, 0x45, 0x06,
  0xd0, 0x2c, 0x1e, 0x8f, 0xca, 0x3f, 0x0f, 0x02, 0xc1, 0xaf, 0xbd, 0x03, 0x01, 0x13, 0x8a, 0x6b,
  0x3a, 0x91, 0x11, 0x41, 0x4f, 0x67, 0xdc, 0xea, 0x97, 0xf2, 0xcf, 0xce, 0xf0, 0xb4, 0xe6, 0x73,
  0x96, 0xac, 0x74, 0x22, 0xe7, 0xad, 0x35, 0x85, 0xe2, 0xf9, 0x37, 0xe8, 0x1c, 0x75, 0xdf, 0x6e,
  0x47, 0xf1, 0x1a, 0x71, 0x1d, 0x29, 0xc5, 0x89, 0x6f, 0xb7, 0x62, 0x0e, 0xaa, 0x18, 0xbe, 0x1b,
  0xfc, 0x56, 0x3e, 0x4b, 0xc6, 0xd2, 0x79, 0x20, 0x9a, 0xdb, 0xc0, 0xfe, 0x78, 0xcd, 0x5a, 0xf4,
  0x1f, 0xdd, 0xa8, 0x33, 0x88, 0x07, 0xc7, 0x31, 0xb1, 0x12, 0x10, 0x59, 0x27, 0x80, 0xec, 0x5f,
  0x60, 0x51, 0x7f, 0xa9, 0x19, 0xb5, 0x4a, 0x0d, 0x2d, 0xe5, 0x7a, 0x9f, 0x93, 0xc9, 0x9c, 0xef,
  0xa0, 0xe0, 0x3b, 0x4d, 0xae, 0x2a, 0xf5, 0xb0, 0xc8, 0xeb, 0xbb, 0x3c, 0x83, 0x53, 0x99, 0x61,
  0x17, 0x2b, 0x04, 0x7e, 0xba, 0x77, 0xd6, 0x26, 0xe1, 0x69, 0x14, 0x63, 0x55, 0x21, 0x0c, 0x7d]

theorem sboxTable_lt : ∀ x : Byte, sboxTable.getD x.val 0 < 256 := by decide

theorem invSboxTable_lt : ∀ x : Byte, invSboxTable.getD x.val 0 < 256 := by decide

/-- The AES S-box. -/
def sbox (b : Byte) : Byte := ⟨sboxTable.getD b.val 0, sboxTable_lt b⟩

/-- The inverse AES S-box. -/
def invSbox (b : Byte) : Byte := ⟨invSboxTable.getD b.val 0, invSboxTable_lt b⟩

/-- An AES state: 16 bytes, flat index `i` = row `i % 4` of column `i / 4`. -/
abbrev AesState := Fin 16 → Byte

def subBytes (s : AesState) : AesState := fun i => sbox (s i)

def invSubBytes (s : AesState) : AesState := fun i => invSbox (s i)

/-- ShiftRows as an index permutation: output byte at row `r`, column `c`
comes from row `r`, column `(c + r) % 4`. -/
def shiftRowsPerm (i : Fin 16) : Fin 16 :=
  ⟨i.val % 4 + 4 * ((i.val / 4 + i.val % 4) % 4), by omega⟩

/-- Inverse ShiftRows permutation: row `r`, column `c` comes from row `r`,
column `(c + 3 * r) % 4`. -/
def invShiftRowsPerm (i : Fin 16) : Fin 16 :=
  ⟨i.val % 4 + 4 * ((i.val / 4 + 3 * (i.val % 4)) % 4), by omega⟩

def shiftRows (s : AesState) : AesState := fun i => s (shiftRowsPerm i)

def invShiftRows (s : AesState) : AesState := fun i => s (invShiftRowsPerm i)

/-- Multiplication by `x` in GF(2^8) modulo the AES polynomial `0x11b`,
on raw naturals. -/
def xtimeN (x : Nat) : Nat := if x.testBit 7 then 2 * x ^^^ 0x11b else 2 * x

theorem xtimeN_lt : ∀ x : Byte, xtimeN x.val < 256 := by decide

def xtime (b : Byte) : Byte := ⟨xtimeN b.val, xtimeN_lt b⟩

/-- GF(2^8) multiplication by the constants used in (Inv)MixColumns. -/
def mul2 (b : Byte) : Byte := xtime b

def mul3 (b : Byte) : Byte := bxor (xtime b) b

def mul9 (b : Byte) : Byte := bxor (xtime (xtime (xtime b))) b

def mul11 (b : Byte) : Byte := bxor (bxor (xtime (xtime (xtime b))) (xtime b)) b

def mul13 (b : Byte) : Byte := bxor (bxor (xtime (xtime (xtime b))) (xtime (xtime b))) b

def mul14 (b : Byte) : Byte :=
  bxor (bxor (xtime (xtime (xtime b))) (xtime (xtime b))) (xtime b)

/-- One column of the AES state. -/
structure Col where
  c0 : Byte
  c1 : Byte
  c2 : Byte
  c3 : Byte
  deriving DecidableEq

def colXor (u v : Col) : Col :=
  ⟨bxor u.c0 v.c0, bxor u.c1 v.c1, bxor u.c2 v.c2, bxor u.c3 v.c3⟩

/-- MixColumns on one column (FIPS-197 §5.1.3). -/
def mixCol (a : Col) : Col :=
  ⟨bxor (bxor (mul2 a.c0) (mul3 a.c1)) (bxor a.c2 a.c3),
   bxor (bxor a.c0 (mul2 a.c1)) (bxor (mul3 a.c2) a.c3),
   bxor (bxor a.c0 a.c1) (bxor (mul2 a.c2) (mul3 a.c3)),
   bxor (bxor (mul3 a.c0) a.c1) (bxor a.c2 (mul2 a.c3))⟩

/-- InvMixColumns on one column (FIPS-197 §5.3.3). -/
def invMixCol (a : Col) : Col :=
  ⟨bxor (bxor (mul14 a.c0) (mul11 a.c1)) (bxor (mul13 a.c2) (mul9 a.c3)),
   bxor (bxor (mul9 a.c0) (mul14 a.c1)) (bxor (mul11 a.c2) (mul13 a.c3)),
   bxor (bxor (mul13 a.c0) (mul9 a.c1)) (bxor (mul14 a.c2) (mul11 a.c3)),
   bxor (bxor (mul11 a.c0) (mul13 a.c1)) (bxor (mul9 a.c2) (mul14 a.c3))⟩

def getCol (s : AesState) (q : Fin 4) : Col :=
  ⟨s ⟨4 * q.val, by omega⟩, s ⟨4 * q.val + 1, by omega⟩,
   s ⟨4 * q.val + 2, by omega⟩, s ⟨4 * q.val + 3, by omega⟩⟩

def colByte (c : Col) (r : Nat) : Byte :=
  if r = 0 then c.c0 else if r = 1 then c.c1 else if r = 2 then c.c2 else c.c3

def mixColumns (s : AesState) : AesState := fun i =>
  colByte (mixCol (getCol s ⟨i.val / 4, by omega⟩)) (i.val % 4)

def invMixColumns (s : AesState) : AesState := fun i =>
  colByte (invMixCol (getCol s ⟨i.val / 4, by omega⟩)) (i.val % 4)

def addRoundKey (s k : AesState) : AesState := fun i => bxor (s i) (k i)

/-! ### Key expansion (FIPS-197 §5.2) -/

def zipXor (a b : List Byte) : List Byte := List.zipWith bxor a b

def rotWord (w : List Byte) : List Byte := w.drop 1 ++ w.take 1

def subWord (w : List Byte) : List Byte := w.map sbox

def rconTable : List Byte := [0x01, 0x02, 0x04, 0x08, 0x10, 0x20, 0x40, 0x80, 0x1b, 0x36]

def xorRcon (w : List Byte) (j : Nat) : List Byte :=
  match w with
  | [] => []
  | a :: rest => bxor a (rconTable.getD (j - 1) 0) :: rest

/-- Word `i` of the expanded key schedule (each word is 4 bytes). -/
def keyWords (key : List Byte) (i : Nat) : List Byte :=
  if i < 4 then (key.drop (4 * i)).take 4
  else
    zipXor (keyWords key (i - 4))
      (if i % 4 = 0 then xorRcon (subWord (rotWord (keyWords key (i - 1)))) (i / 4)
       else keyWords key (i - 1))
termination_by i
decreasing_by all_goals omega

def blockOfList (l : List Byte) : AesState := fun i => l.getD i.val 0

def listOfState (s : AesState) : List Byte := List.ofFn s

/-- Round key `r` as a state (words `4r..4r+3` are the four columns). -/
def roundKey (key : List Byte) (r : Nat) : AesState :=
  blockOfList
    (keyWords key (4 * r) ++ keyWords key (4 * r + 1) ++
     keyWords key (4 * r + 2) ++ keyWords key (4 * r + 3))

/-- AES-128 block encryption (FIPS-197 Cipher). -/
def encryptBlock (key block : List Byte) : List Byte :=
  let rk := roundKey key
  let s0 := addRoundKey (blockOfList block) (rk 0)
  let s1 := addRoundKey (mixColumns (shiftRows (subBytes s0))) (rk 1)
  let s2 := addRoundKey (mixColumns (shiftRows (subBytes s1))) (rk 2)
  let s3 := addRoundKey (mixColumns (shiftRows (subBytes s2))) (rk 3)
  let s4 := addRoundKey (mixColumns (shiftRows (subBytes s3))) (rk 4)
  let s5 := addRoundKey (mixColumns (shiftRows (subBytes s4))) (rk 5)
  let s6 := addRoundKey (mixColumns (shiftRows (subBytes s5))) (rk 6)
  let s7 := addRoundKey (mixColumns (shiftRows (subBytes s6))) (rk 7)
  let s8 := addRoundKey (mixColumns (shiftRows (subBytes s7))) (rk 8)
  let s9 := addRoundKey (mixColumns (shiftRows (subBytes s8))) (rk 9)
  listOfState (addRoundKey (shiftRows (subBytes s9)) (rk 10))

/-- AES-128 block decryption (FIPS-197 InvCipher). -/
def decryptBlock (key block : List Byte) : List Byte :=
  let rk := roundKey key
  let t10 := addRoundKey (blockOfList block) (rk 10)
  let t9 := invMixColumns (addRoundKey (invSubBytes (invShiftRows t10)) (rk 9))
  let t8 := invMixColumns (addRoundKey (invSubBytes (invShiftRows t9)) (rk 8))
  let t7 := invMixColumns (addRoundKey (invSubBytes (invShiftRows t8)) (rk 7))
  let t6 := invMixColumns (addRoundKey (invSubBytes (invShiftRows t7)) (rk 6))
  let t5 := invMixColumns (addRoundKey (invSubBytes (invShiftRows t6)) (rk 5))
  let t4 := invMixColumns (addRoundKey (invSubBytes (invShiftRows t5)) (rk 4))
  let t3 := invMixColumns (addRoundKey (invSubBytes (invShiftRows t4)) (rk 3))
  let t2 := invMixColumns (addRoundKey (invSubBytes (invShiftRows t3)) (rk 2))
  let t1 := invMixColumns (addRoundKey (invSubBytes (invShiftRows t2)) (rk 1))
  listOfState (addRoundKey (invSubBytes (invShiftRows t1)) (rk 0))

/-! ### Inverse lemmas for the AES layers -/

theorem invSbox_sbox : ∀ b : Byte, invSbox (sbox b) = b := by decide

theorem invSubBytes_subBytes (s : AesState) : invSubBytes (subBytes s) = s := by
  funext i
  exact invSbox_sbox (s i)

theorem shiftRowsPerm_invShiftRowsPerm :
    ∀ i : Fin 16, shiftRowsPerm (invShiftRowsPerm i) = i := by decide

theorem invShiftRows_shiftRows (s : AesState) : invShiftRows (shiftRows s) = s := by
  funext i
  show s (shiftRowsPerm (invShiftRowsPerm i)) = s i
  rw [shiftRowsPerm_invShiftRowsPerm]

theorem addRoundKey_addRoundKey (s k : AesState) :
    addRoundKey (addRoundKey s k) k = s := by
  funext i
  exact bxor_cancel_right (s i) (k i)

theorem two_mul_xor (x y : Nat) : 2 * (x ^^^ y) = 2 * x ^^^ 2 * y := by
  have h : ∀ z : Nat, 2 * z = z <<< 1 := by
    intro z
    rw [Nat.shiftLeft_eq]
    ring
  rw [h, h, h]
  apply Nat.eq_of_testBit_eq
  intro i
  simp only [Nat.testBit_shiftLeft, Nat.testBit_xor]
  cases Nat.decEq i 0 with
  | isTrue h0 => subst h0; simp
  | isFalse h0 =>
    have h1 : 1 ≤ i := Nat.one_le_iff_ne_zero.mpr h0
    simp [h1]

theorem xtimeN_xor (x y : Nat) : xtimeN (x ^^^ y) = xtimeN x ^^^ xtimeN y := by
  unfold xtimeN
  rw [Nat.testBit_xor]
  cases hx : x.testBit 7 <;> cases hy : y.testBit 7 <;>
    simp [two_mul_xor, Nat.xor_assoc, Nat.xor_comm,
      Nat.xor_cancel_right, Nat.xor_self, Nat.xor_zero]
  · rw [← Nat.xor_assoc, Nat.xor_comm (2 * x) (2 * y), Nat.xor_assoc]
  · rw [Nat.xor_comm (2 * y) 283, ← Nat.xor_assoc, Nat.xor_self, Nat.zero_xor]

theorem xtime_bxor (a b : Byte) : xtime (bxor a b) = bxor (xtime a) (xtime b) := by
  apply Fin.ext
  exact xtimeN_xor a.val b.val

theorem mul2_bxor (a b : Byte) : mul2 (bxor a b) = bxor (mul2 a) (mul2 b) :=
  xtime_bxor a b

theorem mul3_bxor (a b : Byte) : mul3 (bxor a b) = bxor (mul3 a) (mul3 b) := by
  simp only [mul3, xtime_bxor]
  simp [bxor_assoc, bxor_comm, bxor_left_comm]

theorem mul9_bxor (a b : Byte) : mul9 (bxor a b) = bxor (mul9 a) (mul9 b) := by
  simp only [mul9, xtime_bxor]
  simp [bxor_assoc, bxor_comm, bxor_left_comm]

theorem mul11_bxor (a b : Byte) : mul11 (bxor a b) = bxor (mul11 a) (mul11 b) := by
  simp only [mul11, xtime_bxor]
  simp [bxor_assoc, bxor_comm, bxor_left_comm]

theorem mul13_bxor (a b : Byte) : mul13 (bxor a b) = bxor (mul13 a) (mul13 b) := by
  simp only [mul13, xtime_bxor]
  simp [bxor_assoc, bxor_comm, bxor_left_comm]

theorem mul14_bxor (a b : Byte) : mul14 (bxor a b) = bxor (mul14 a) (mul14 b) := by
  simp only [mul14, xtime_bxor]
  simp [bxor_assoc, bxor_comm, bxor_left_comm]

theorem mixCol_colXor (u v : Col) :
    mixCol (colXor u v) = colXor (mixCol u) (mixCol v) := by
  simp only [mixCol, colXor, mul2_bxor, mul3_bxor, Col.mk.injEq]
  refine ⟨?_, ?_, ?_, ?_⟩ <;> simp [bxor_assoc, bxor_comm, bxor_left_comm]

theorem invMixCol_colXor (u v : Col) :
    invMixCol (colXor u v) = colXor (invMixCol u) (invMixCol v) := by
  simp only [invMixCol, colXor, mul9_bxor, mul11_bxor, mul13_bxor, mul14_bxor, Col.mk.injEq]
  refine ⟨?_, ?_, ?_, ?_⟩ <;> simp [bxor_assoc, bxor_comm, bxor_left_comm]

theorem col_decomp (a : Col) :
    a = colXor ⟨a.c0, 0, 0, 0⟩ (colXor ⟨0, a.c1, 0, 0⟩ (colXor ⟨0, 0, a.c2, 0⟩ ⟨0, 0, 0, a.c3⟩)) := by
  simp [colXor, bxor_zero, zero_bxor]

theorem invMixCol_mixCol_e0 :
    ∀ x : Byte, invMixCol (mixCol ⟨x, 0, 0, 0⟩) = ⟨x, 0, 0, 0⟩ := by decide

theorem invMixCol_mixCol_e1 :
    ∀ x : Byte, invMixCol (mixCol ⟨0, x, 0, 0⟩) = ⟨0, x, 0, 0⟩ := by decide

theorem invMixCol_mixCol_e2 :
    ∀ x : Byte, invMixCol (mixCol ⟨0, 0, x, 0⟩) = ⟨0, 0, x, 0⟩ := by decide

theorem invMixCol_mixCol_e3 :
    ∀ x : Byte, invMixCol (mixCol ⟨0, 0, 0, x⟩) = ⟨0, 0, 0, x⟩ := by decide

theorem invMixCol_mixCol (a : Col) : invMixCol (mixCol a) = a := by
  conv_lhs => rw [col_decomp a]
  rw [mixCol_colXor, mixCol_colXor, mixCol_colXor,
    invMixCol_colXor, invMixCol_colXor, invMixCol_colXor,
    invMixCol_mixCol_e0, invMixCol_mixCol_e1, invMixCol_mixCol_e2, invMixCol_mixCol_e3,
    ← col_decomp]

theorem getCol_mixColumns (s : AesState) (q : Fin 4) :
    getCol (mixColumns s) q = mixCol (getCol s q) := by
  fin_cases q <;> rfl

theorem colByte_getCol (s : AesState) (i : Fin 16) :
    colByte (getCol s ⟨i.val / 4, by omega⟩) (i.val % 4) = s i := by
  fin_cases i <;> rfl

theorem invMixColumns_mixColumns (s : AesState) :
    invMixColumns (mixColumns s) = s := by
  funext i
  show colByte (invMixCol (getCol (mixColumns s) _)) (i.val % 4) = s i
  rw [getCol_mixColumns, invMixCol_mixCol]
  exact colByte_getCol s i

theorem blockOfList_listOfState (s : AesState) : blockOfList (listOfState s) = s := by
  funext i
  show (List.ofFn s).getD i.val 0 = s i
  have hlen : i.val < (List.ofFn s).length := by simp [i.isLt]
  rw [List.getD_eq_getElem _ _ hlen, List.getElem_ofFn]

theorem listOfState_blockOfList {l : List Byte} (h : l.length = 16) :
    listOfState (blockOfList l) = l := by
  apply List.ext_getElem
  · simp [listOfState, h]
  · intro i h1 h2
    simp only [listOfState]
    rw [List.getElem_ofFn]
    show (blockOfList l) ⟨i, _⟩ = l[i]
    simp only [blockOfList]
    rw [List.getD_eq_getElem _ _ h2]

/-- AES-128 block decryption inverts block encryption. -/
theorem decryptBlock_encryptBlock (key p : List Byte) (hp : p.length = 16) :
    decryptBlock key (encryptBlock key p) = p := by
  simp only [decryptBlock, encryptBlock, blockOfList_listOfState,
    addRoundKey_addRoundKey, invShiftRows_shiftRows, invSubBytes_subBytes,
    invMixColumns_mixColumns]
  exact listOfState_blockOfList hp

theorem encryptBlock_length (key b : List Byte) : (encryptBlock key b).length = 16 := by
  simp [encryptBlock, listOfState]

/-! ## Errors (`src/error.rs`)

The variants wrapping bus-library errors (`Zbus`, `ZbusMsg`, `ZbusFdo`,
`Zvariant`) are not produced by any code modelled here and are omitted. -/

inductive SsError where
  | Crypto (msg : String)
  | Locked
  | NoResult
  | Parse
  | Prompt
  deriving DecidableEq, Repr

/-! ## PKCS7 padding and CBC mode

`session.rs` (feature `crypto-rust`) delegates to
`cbc::{Encryptor, Decryptor}<aes::Aes128>` with `block_padding::Pkcs7`:
the data is padded with `n = 16 - len % 16` bytes of value `n`, each block is
xored with the previous ciphertext block (the IV for the first) before/after
the block cipher, and unpadding validates the final block's padding. -/

theorem pkcs7PadLen_lt (n : Nat) : 16 - n % 16 < 256 := by omega

def pkcs7Pad (data : List Byte) : List Byte :=
  data ++
    List.replicate (16 - data.length % 16)
      ⟨16 - data.length % 16, pkcs7PadLen_lt data.length⟩

/-- PKCS7 unpadding as in the `block-padding` crate: read the final byte `n`,
require `1 ≤ n ≤ 16` and that the last `n` bytes all equal `n`.  The caller
guarantees `data` is a nonempty multiple of 16 bytes, so the last `n` bytes
lie in the final block. -/
def pkcs7Unpad (data : List Byte) : Except SsError (List Byte) :=
  let n := (data.getD (data.length - 1) 0).val
  if n = 0 ∨ 16 < n then .error (.Crypto "message decryption failed")
  else if (data.drop (data.length - n)).all (fun b => b.val == n) then
    .ok (data.take (data.length - n))
  else .error (.Crypto "message decryption failed")

/-- Split a byte list into chunks of (at most) 16 bytes. -/
def toBlocks (l : List Byte) : List (List Byte) :=
  if l = [] then [] else l.take 16 :: toBlocks (l.drop 16)
termination_by l.length
decreasing_by
  have hpos : 0 < l.length := List.length_pos.mpr (by assumption)
  simp only [List.length_drop]
  omega

def cbcEncBlocks (key : List Byte) (prev : List Byte) : List (List Byte) → List (List Byte)
  | [] => []
  | b :: bs =>
      let c := encryptBlock key (zipXor prev b)
      c :: cbcEncBlocks key c bs

def cbcDecBlocks (key : List Byte) (prev : List Byte) : List (List Byte) → List (List Byte)
  | [] => []
  | c :: cs => zipXor prev (decryptBlock key c) :: cbcDecBlocks key c cs

/-- `session.rs` `encrypt` (feature `crypto-rust`):
`Aes128CbcEnc::new(key, iv).encrypt_padded_vec_mut::<Pkcs7>(data)`.
`GenericArray::from_slice(iv)` requires a 16-byte IV (it panics otherwise);
the only caller, `format_secret_zbus`, always passes a fresh `[0u8; 16]`
filled from `OsRng`. -/
def encrypt (data key iv : List Byte) : List Byte :=
  (cbcEncBlocks key iv (toBlocks (pkcs7Pad data))).flatten

/-- `session.rs` `decrypt` (feature `crypto-rust`):
`Aes128CbcDec::new(key, iv).decrypt_padded_vec_mut::<Pkcs7>(..)` mapped to
`Error::Crypto` on failure.  `none` models the panic of
`GenericArray::from_slice` on an IV that is not 16 bytes; the `UnpadError`
cases (empty input, length not a multiple of the block size, invalid padding)
become `Error::Crypto("message decryption failed")`. -/
def decrypt (encrypted_data key iv : List Byte) : Option (Except SsError (List Byte)) :=
  if iv.length = 16 then
    some
      (if encrypted_data.length % 16 = 0 ∧ encrypted_data ≠ [] then
        pkcs7Unpad (cbcDecBlocks key iv (toBlocks encrypted_data)).flatten
      else .error (.Crypto "message decryption failed"))
  else none

/-! ## Session and the secret codec (`src/session.rs`, `src/util.rs`) -/

/-- `session.rs` `Session`: a session object path plus the optional 16-byte
AES key (`None` for a plain session). -/
structure Session where
  object_path : String
  aes_key : Option (List Byte)

/-- `format_secret_zbus` builds the wire `SecretStruct`. -/
structure SecretStruct where
  session : String
  parameters : List Byte
  value : List Byte
  content_type : String
  deriving DecidableEq, Repr

/-- `util.rs` `format_secret_zbus`.  The 16 random IV bytes drawn from
`OsRng` are modelled by the explicit argument `rng`. -/
def format_secret_zbus (session : Session) (secret : List Byte)
    (content_type : String) (rng : Fin 16 → Byte) : SecretStruct :=
  match session.aes_key with
  | some key =>
      let aes_iv := List.ofFn rng
      let encrypted_secret := encrypt secret key aes_iv
      { session := session.object_path, parameters := aes_iv,
        value := encrypted_secret, content_type := content_type }
  | none =>
      { session := session.object_path, parameters := [],
        value := secret, content_type := content_type }

/-- The decoding path of `blocking::Item::get_secret`
(src/blocking/item.rs): `secret_struct` is the daemon's `GetSecret` reply;
on an encrypted session the value is decrypted with the session key and the
reply's `parameters` as IV.  `none` models a Rust panic inside `decrypt`. -/
def get_secret (session : Session) (secret_struct : SecretStruct) :
    Option (Except SsError (List Byte)) :=
  match session.aes_key with
  | some session_key => decrypt secret_struct.value session_key secret_struct.parameters
  | none => some (.ok secret_struct.value)

/-- The decoding path of the legacy `Item::get_secret` (src/item.rs:191-234):
identical, except that the decryption result is `unwrap()`ed, so a decryption
error is a panic (`none`) instead of a returned error. -/
def get_secret_legacy (session : Session) (secret_struct : SecretStruct) :
    Option (List Byte) :=
  match session.aes_key with
  | none => some secret_struct.value
  | some key =>
      match decrypt secret_struct.value key secret_struct.parameters with
      | some (.ok plain) => some plain
      | some (.error _) => none
      | none => none

/-! ### Round trip of the CBC-PKCS7 codec -/

theorem zipXor_length (a b : List Byte) :
    (zipXor a b).length = min a.length b.length := by
  simp [zipXor]

theorem zipXor_cancel :
    ∀ (a b : List Byte), a.length = b.length → zipXor a (zipXor a b) = b := by
  intro a
  induction a with
  | nil =>
    intro b hb
    cases b with
    | nil => rfl
    | cons y ys => simp at hb
  | cons x xs ih =>
    intro b hb
    cases b with
    | nil => simp at hb
    | cons y ys =>
      have hxy : xs.length = ys.length := by simpa using hb
      show List.zipWith bxor (x :: xs) (List.zipWith bxor (x :: xs) (y :: ys)) = y :: ys
      simp only [List.zipWith_cons_cons]
      rw [bxor_cancel_left]
      have hih := ih ys hxy
      simp only [zipXor] at hih
      rw [hih]

theorem pkcs7Pad_length (d : List Byte) :
    (pkcs7Pad d).length = d.length + (16 - d.length % 16) := by
  simp [pkcs7Pad]

theorem pkcs7Pad_length_mod (d : List Byte) : (pkcs7Pad d).length % 16 = 0 := by
  rw [pkcs7Pad_length]
  omega

theorem pkcs7Pad_length_pos (d : List Byte) : 0 < (pkcs7Pad d).length := by
  rw [pkcs7Pad_length]
  omega

theorem toBlocks_nil : toBlocks [] = [] := by
  rw [toBlocks]
  simp

theorem toBlocks_cons {l : List Byte} (h : l ≠ []) :
    toBlocks l = l.take 16 :: toBlocks (l.drop 16) := by
  rw [toBlocks]
  simp [h]

theorem flatten_toBlocks_aux :
    ∀ (n : Nat) (l : List Byte), l.length ≤ n → (toBlocks l).flatten = l := by
  intro n
  induction n with
  | zero =>
    intro l hl
    have : l = [] := List.eq_nil_of_length_eq_zero (by omega)
    subst this
    simp [toBlocks_nil]
  | succ n ih =>
    intro l hl
    by_cases h : l = []
    · subst h
      simp [toBlocks_nil]
    · have hpos : 0 < l.length := List.length_pos.mpr h
      rw [toBlocks_cons h]
      have hd : (l.drop 16).length ≤ n := by
        simp only [List.length_drop]
        omega
      rw [List.flatten_cons, ih (l.drop 16) hd, List.take_append_drop]

theorem flatten_toBlocks (l : List Byte) : (toBlocks l).flatten = l :=
  flatten_toBlocks_aux l.length l le_rfl

theorem toBlocks_mem_length_aux :
    ∀ (n : Nat) (l : List Byte), l.length ≤ n → l.length % 16 = 0 →
      ∀ b ∈ toBlocks l, b.length = 16 := by
  intro n
  induction n with
  | zero =>
    intro l hl _
    have : l = [] := List.eq_nil_of_length_eq_zero (by omega)
    subst this
    simp [toBlocks_nil]
  | succ n ih =>
    intro l hl hmod
    by_cases h : l = []
    · subst h
      simp [toBlocks_nil]
    · have hpos : 0 < l.length := List.length_pos.mpr h
      have h16 : 16 ≤ l.length := by omega
      rw [toBlocks_cons h]
      intro b hb
      cases hb with
      | head => simp [List.length_take]; omega
      | tail _ hb =>
        refine ih (l.drop 16) ?_ ?_ b hb
        · simp only [List.length_drop]
          omega
        · simp only [List.length_drop]
          omega

theorem toBlocks_mem_length {l : List Byte} (hmod : l.length % 16 = 0) :
    ∀ b ∈ toBlocks l, b.length = 16 :=
  toBlocks_mem_length_aux l.length l le_rfl hmod

theorem toBlocks_flatten :
    ∀ bs : List (List Byte), (∀ b ∈ bs, b.length = 16) → toBlocks bs.flatten = bs := by
  intro bs
  induction bs with
  | nil => intro _; simp [toBlocks_nil]
  | cons b bs ih =>
    intro h
    have hb : b.length = 16 := h b (by simp)
    have hbne : b ≠ [] := by
      intro hc
      rw [hc] at hb
      simp at hb
    have hne : b ++ bs.flatten ≠ [] := by
      simp [hbne]
    rw [List.flatten_cons, toBlocks_cons hne]
    congr 1
    · rw [← hb, List.take_left]
    · rw [← hb, List.drop_left]
      exact ih fun c hc => h c (by simp [hc])

theorem cbcEncBlocks_mem (key : List Byte) :
    ∀ (bs : List (List Byte)) (prev : List Byte),
      ∀ c ∈ cbcEncBlocks key prev bs, c.length = 16 := by
  intro bs
  induction bs with
  | nil => intro prev c hc; simp [cbcEncBlocks] at hc
  | cons b bs ih =>
    intro prev c hc
    simp only [cbcEncBlocks] at hc
    cases hc with
    | head => exact encryptBlock_length key _
    | tail _ hc => exact ih _ c hc

theorem cbcDecBlocks_cbcEncBlocks (key : List Byte) :
    ∀ (bs : List (List Byte)) (prev : List Byte), prev.length = 16 →
      (∀ b ∈ bs, b.length = 16) →
      cbcDecBlocks key prev (cbcEncBlocks key prev bs) = bs := by
  intro bs
  induction bs with
  | nil => intro prev _ _; rfl
  | cons b bs ih =>
    intro prev hprev hb
    have hb16 : b.length = 16 := hb b (by simp)
    have hzx : (zipXor prev b).length = 16 := by
      rw [zipXor_length, hprev, hb16]
      simp
    simp only [cbcEncBlocks, cbcDecBlocks]
    rw [decryptBlock_encryptBlock key _ hzx,
      zipXor_cancel prev b (by omega),
      ih _ (encryptBlock_length key _) (fun c hc => hb c (by simp [hc]))]

theorem flatten_length_16 :
    ∀ bs : List (List Byte), (∀ b ∈ bs, b.length = 16) →
      bs.flatten.length = 16 * bs.length := by
  intro bs
  induction bs with
  | nil => intro _; simp
  | cons b bs ih =>
    intro h
    have hb : b.length = 16 := h b (by simp)
    simp only [List.flatten_cons, List.length_append, List.length_cons,
      ih fun c hc => h c (by simp [hc]), hb]
    ring

theorem cbcEncBlocks_length (key : List Byte) :
    ∀ (bs : List (List Byte)) (prev : List Byte),
      (cbcEncBlocks key prev bs).length = bs.length := by
  intro bs
  induction bs with
  | nil => intro prev; rfl
  | cons b bs ih => intro prev; simp [cbcEncBlocks, ih]

theorem encrypt_length (data key iv : List Byte) :
    (encrypt data key iv).length = (pkcs7Pad data).length := by
  unfold encrypt
  rw [flatten_length_16 _ (cbcEncBlocks_mem key _ iv), cbcEncBlocks_length]
  conv_rhs => rw [← flatten_toBlocks (pkcs7Pad data)]
  rw [flatten_length_16 _ (toBlocks_mem_length (pkcs7Pad_length_mod data))]

theorem pkcs7Unpad_append_replicate (d : List Byte) (m : Nat) (pb : Byte)
    (h1 : 1 ≤ m) (h16 : m ≤ 16) (hpb : pb.val = m) :
    pkcs7Unpad (d ++ List.replicate m pb) = .ok d := by
  have hlen : (d ++ List.replicate m pb).length = d.length + m := by simp
  have hlast : (d ++ List.replicate m pb).getD ((d ++ List.replicate m pb).length - 1) 0 = pb := by
    rw [hlen, List.getD_eq_getElem?_getD, List.getElem?_append_right (by omega),
      List.getElem?_replicate]
    have : d.length + m - 1 - d.length < m := by omega
    simp [this]
  simp only [pkcs7Unpad]
  rw [hlast, hpb, hlen]
  have e1 : d.length + m - m = d.length := by omega
  rw [e1, if_neg (by omega : ¬(m = 0 ∨ 16 < m)), List.drop_left, List.take_left]
  have hall : ((List.replicate m pb).all fun b => b.val == m) = true := by
    simp [List.all_eq_true, List.mem_replicate, hpb]
  rw [hall]
  simp

theorem pkcs7Unpad_pkcs7Pad (d : List Byte) : pkcs7Unpad (pkcs7Pad d) = .ok d :=
  pkcs7Unpad_append_replicate d (16 - d.length % 16) _ (by omega) (by omega) rfl

/-- AES-128-CBC-PKCS7 decryption inverts encryption under the same key and a
16-byte IV. -/
theorem decrypt_encrypt (data key iv : List Byte) (hiv : iv.length = 16) :
    decrypt (encrypt data key iv) key iv = some (.ok data) := by
  have hctlen : (encrypt data key iv).length % 16 = 0 := by
    rw [encrypt_length]
    exact pkcs7Pad_length_mod data
  have hctne : encrypt data key iv ≠ [] := by
    apply List.ne_nil_of_length_pos
    rw [encrypt_length]
    exact pkcs7Pad_length_pos data
  unfold decrypt
  rw [if_pos hiv, if_pos ⟨hctlen, hctne⟩]
  unfold encrypt
  rw [toBlocks_flatten _ (cbcEncBlocks_mem key _ iv),
    cbcDecBlocks_cbcEncBlocks key _ iv hiv
      (toBlocks_mem_length (pkcs7Pad_length_mod data)),
    flatten_toBlocks]
  exact congrArg some (pkcs7Unpad_pkcs7Pad data)

/-! ## Claim theorems for the secret codec -/

/-- C1: Secret codec round trip — for every byte sequence `b` (including the
empty one), every content type, and every session (plain, or encrypted with
its 16-byte AES key), decoding the record produced by encoding `b` under that
session returns exactly `b`. Encoding is `format_secret_zbus` (with the random
IV bytes modelled by `rng`), decoding is the `get_secret` path; `some` on the
right says no panic occurs. -/
theorem c1_secret_codec_roundtrip (path : String) (key : Option (List Byte))
    (hk : ∀ k ∈ key, k.length = 16) (b : List Byte) (ct : String)
    (rng : Fin 16 → Byte) :
    get_secret ⟨path, key⟩ (format_secret_zbus ⟨path, key⟩ b ct rng) =
      some (.ok b) := by
  cases key with
  | none => rfl
  | some k =>
    show decrypt (encrypt b k (List.ofFn rng)) k (List.ofFn rng) = some (.ok b)
    exact decrypt_encrypt b k _ (by simp)

/-- Witness for C1 at a concrete encrypted session and secret. -/
theorem c1_secret_codec_roundtrip_witness :
    (∀ k ∈ some (List.replicate 16 (0 : Byte)), k.length = 16) ∧
      get_secret ⟨"/org/fd/secrets/session/s1", some (List.replicate 16 0)⟩
          (format_secret_zbus ⟨"/org/fd/secrets/session/s1", some (List.replicate 16 0)⟩
            [104, 117, 110] "text/plain" (fun _ => 7)) =
        some (.ok [104, 117, 110]) :=
  ⟨by simp, c1_secret_codec_roundtrip "/org/fd/secrets/session/s1"
    (some (List.replicate 16 0)) (by simp) [104, 117, 110] "text/plain" (fun _ => 7)⟩

/-- C9: SecretRecord shape invariant — a record produced by `format_secret_zbus`
over a plain session has empty `parameters` and `value` equal to the input
secret; over an encrypted session it has a 16-byte IV in `parameters` and a
`value` whose length is a non-zero multiple of 16 (so the empty secret still
encrypts to one full block). -/
theorem c9_secret_record_shape (path : String) (b : List Byte) (ct : String)
    (rng : Fin 16 → Byte) :
    ((format_secret_zbus ⟨path, none⟩ b ct rng).parameters = [] ∧
      (format_secret_zbus ⟨path, none⟩ b ct rng).value = b) ∧
    ∀ k : List Byte,
      (format_secret_zbus ⟨path, some k⟩ b ct rng).parameters.length = 16 ∧
      (format_secret_zbus ⟨path, some k⟩ b ct rng).value.length % 16 = 0 ∧
      (format_secret_zbus ⟨path, some k⟩ b ct rng).value.length ≠ 0 := by
  refine ⟨⟨rfl, rfl⟩, fun k => ⟨by simp [format_secret_zbus], ?_, ?_⟩⟩
  · show (encrypt b k (List.ofFn rng)).length % 16 = 0
    rw [encrypt_length]
    exact pkcs7Pad_length_mod b
  · show (encrypt b k (List.ofFn rng)).length ≠ 0
    rw [encrypt_length]
    have := pkcs7Pad_length_pos b
    omega

/-- C6: the legacy `Item::get_secret` (src/item.rs:231) calls
`decrypt(..).unwrap()`, so on an encrypted session a malformed `value` — here
a single byte, whose length is not a multiple of the block size — makes
`decrypt` return `Err(Crypto)` and the `unwrap` panic (`none`), instead of the
`CryptoError` the specification promises; the blocking `get_secret` propagates
the same error instead. -/
theorem c6_legacy_get_secret_panics :
    decrypt [0] (List.replicate 16 0) (List.replicate 16 0) =
        some (.error (.Crypto "message decryption failed")) ∧
      get_secret_legacy ⟨"/s", some (List.replicate 16 0)⟩
          { session := "/s", parameters := List.replicate 16 0, value := [0],
            content_type := "text/plain" } = none ∧
      get_secret ⟨"/s", some (List.replicate 16 0)⟩
          { session := "/s", parameters := List.replicate 16 0, value := [0],
            content_type := "text/plain" } =
        some (.error (.Crypto "message decryption failed")) := by
  refine ⟨?_, ?_, ?_⟩ <;> rfl

/-! ## SHA-256, HMAC and HKDF

`session.rs` (feature `crypto-rust`) derives the session key with
`Hkdf::<Sha256>::extract` / `expand` from the `hkdf` + `sha2` crates; these
are embedded here as standard FIPS-180-4 SHA-256, RFC 2104 HMAC and RFC 5869
HKDF.  32-bit words are naturals reduced modulo `2^32`. -/

def byteOfNat (n : Nat) : Byte := ⟨n % 256, Nat.mod_lt _ (by norm_num)⟩

def w32 (n : Nat) : Nat := n % 4294967296

def add32 (a b : Nat) : Nat := (a + b) % 4294967296

def rotr32 (n x : Nat) : Nat := w32 ((x >>> n) ||| (x <<< (32 - n)))

def not32 (x : Nat) : Nat := 4294967295 ^^^ x

def kTable : List Nat := [
  1116352408, 1899447441, 3049323471, 3921009573, 961987163, 1508970993,
  2453635748, 2870763221, 3624381080, 310598401, 607225278, 1426881987,
  1925078388, 2162078206, 2614888103, 3248222580, 3835390401, 4022224774,
  264347078, 604807628, 770255983, 1249150122, 1555081692, 1996064986,
  2554220882, 2821834349, 2952996808, 3210313671, 3336571891, 3584528711,
  113926993, 338241895, 666307205, 773529912, 1294757372, 1396182291,
  1695183700, 1986661051, 2177026350, 2456956037, 2730485921, 2820302411,
  3259730800, 3345764771, 3516065817, 3600352804, 4094571909, 275423344,
  430227734, 506948616, 659060556, 883997877, 958139571, 1322822218,
  1537002063, 1747873779, 1955562222, 2024104815, 2227730452, 2361852424,
  2428436474, 2756734187, 3204031479, 3329325298]

def sha256H0 : List Nat := [
  1779033703, 3144134277, 1013904242, 2773480762,
  1359893119, 2600822924, 528734635, 1541459225]

/-- Big-endian 8-byte encoding of a 64-bit length. -/
def u64BytesBE (n : Nat) : List Byte :=
  List.ofFn (fun i : Fin 8 => byteOfNat (n / 256 ^ (7 - i.val)))

/-- FIPS-180-4 message padding: `0x80`, zeros, then the bit length. -/
def sha256Pad (msg : List Byte) : List Byte :=
  msg ++ (byteOfNat 0x80 :: List.replicate ((64 - (msg.length + 9) % 64) % 64) 0) ++
    u64BytesBE (msg.length * 8)

/-- Big-endian 32-bit words from bytes (length a multiple of 4). -/
def wordsOfBytes : List Byte → List Nat
  | a :: b :: c :: d :: rest =>
      (((a.val * 256 + b.val) * 256 + c.val) * 256 + d.val) :: wordsOfBytes rest
  | _ => []

def u32BytesBE (n : Nat) : List Byte :=
  List.ofFn (fun i : Fin 4 => byteOfNat (n / 256 ^ (3 - i.val)))

/-- Split into 64-byte blocks. -/
def chunks64 (l : List Byte) : List (List Byte) :=
  if l = [] then [] else l.take 64 :: chunks64 (l.drop 64)
termination_by l.length
decreasing_by
  have hpos : 0 < l.length := List.length_pos.mpr (by assumption)
  simp only [List.length_drop]
  omega

def bsig0 (x : Nat) : Nat := rotr32 2 x ^^^ rotr32 13 x ^^^ rotr32 22 x

def bsig1 (x : Nat) : Nat := rotr32 6 x ^^^ rotr32 11 x ^^^ rotr32 25 x

def ssig0 (x : Nat) : Nat := rotr32 7 x ^^^ rotr32 18 x ^^^ (x >>> 3)

def ssig1 (x : Nat) : Nat := rotr32 17 x ^^^ rotr32 19 x ^^^ (x >>> 10)

def chFn (x y z : Nat) : Nat := (x &&& y) ^^^ (not32 x &&& z)

def majFn (x y z : Nat) : Nat := (x &&& y) ^^^ (x &&& z) ^^^ (y &&& z)

/-- The extended message schedule `W_t` for one block. -/
def msgSchedule (ws : List Nat) (t : Nat) : Nat :=
  if t < 16 then ws.getD t 0
  else
    add32 (add32 (ssig1 (msgSchedule ws (t - 2))) (msgSchedule ws (t - 7)))
      (add32 (ssig0 (msgSchedule ws (t - 15))) (msgSchedule ws (t - 16)))
termination_by t
decreasing_by all_goals omega

abbrev Sha256St := Nat × Nat × Nat × Nat × Nat × Nat × Nat × Nat

def sha256Step (w : Nat → Nat) (st : Sha256St) (t : Nat) : Sha256St :=
  let (a, b, c, d, e, f, g, h) := st
  let t1 := add32 (add32 (add32 h (bsig1 e)) (add32 (chFn e f g) (kTable.getD t 0))) (w t)
  let t2 := add32 (bsig0 a) (majFn a b c)
  (add32 t1 t2, a, b, c, add32 d t1, e, f, g)

def sha256Compress (h : List Nat) (block : List Byte) : List Nat :=
  let w := msgSchedule (wordsOfBytes block)
  let init : Sha256St :=
    (h.getD 0 0, h.getD 1 0, h.getD 2 0, h.getD 3 0,
     h.getD 4 0, h.getD 5 0, h.getD 6 0, h.getD 7 0)
  let (a, b, c, d, e, f, g, hh) := (List.range 64).foldl (sha256Step w) init
  [add32 (h.getD 0 0) a, add32 (h.getD 1 0) b, add32 (h.getD 2 0) c,
   add32 (h.getD 3 0) d, add32 (h.getD 4 0) e, add32 (h.getD 5 0) f,
   add32 (h.getD 6 0) g, add32 (h.getD 7 0) hh]

def sha256 (msg : List Byte) : List Byte :=
  (((chunks64 (sha256Pad msg)).foldl sha256Compress sha256H0).map u32BytesBE).flatten

/-- RFC 2104 key preparation: hash keys longer than the block size, then
zero-pad to the 64-byte block size. -/
def hmacPadKey (key : List Byte) : List Byte :=
  let k := if 64 < key.length then sha256 key else key
  k ++ List.replicate (64 - k.length) 0

/-- RFC 2104 HMAC-SHA256. -/
def hmacSha256 (key msg : List Byte) : List Byte :=
  let k0 := hmacPadKey key
  sha256 ((k0.map (fun b => bxor b (byteOfNat 0x5c))) ++
    sha256 ((k0.map (fun b => bxor b (byteOfNat 0x36))) ++ msg))

/-- RFC 5869 extract; an absent salt is a string of HashLen (32) zeros. -/
def hkdfExtract (salt : Option (List Byte)) (ikm : List Byte) : List Byte :=
  hmacSha256 (salt.getD (List.replicate 32 0)) ikm

/-- RFC 5869 expand blocks: `T(0) = empty`,
`T(i) = HMAC(prk, T(i-1) ++ info ++ [i])`. -/
def hkdfT (prk info : List Byte) : Nat → List Byte
  | 0 => []
  | n + 1 => hmacSha256 prk (hkdfT prk info n ++ info ++ [byteOfNat (n + 1)])

/-- `session.rs` `hkdf` (feature `crypto-rust`):
`Hkdf::<Sha256>::extract(salt, &ikm)` followed by `hk.expand(&[], okm)` with
an `okm` buffer of `okmLen` bytes and empty `info`. -/
def hkdf (ikm : List Byte) (salt : Option (List Byte)) (okmLen : Nat) : List Byte :=
  let prk := hkdfExtract salt ikm
  (((List.range ((okmLen + 31) / 32)).map (fun i => hkdfT prk [] (i + 1))).flatten).take okmLen

/-! ## Modular exponentiation and shared-key derivation (`src/session.rs`) -/

/-- The loop of `powm`: `result` accumulates, `exp` is halved, `base` is
squared each iteration; on an odd `exp` the result is multiplied by the
current `base` modulo `modulus` first. -/
def powmLoop (base exp modulus result : Nat) : Nat :=
  if exp = 0 then result
  else
    powmLoop (base * base % modulus) (exp / 2) modulus
      (if exp % 2 = 1 then result * base % modulus else result)
termination_by exp
decreasing_by omega

/-- `session.rs` `powm`. -/
def powm (base exp modulus : Nat) : Nat := powmLoop base exp modulus 1

/-- `BigUint::from_bytes_be`. -/
def from_bytes_be (l : List Byte) : Nat := l.foldl (fun acc b => acc * 256 + b.val) 0

def toBytesBeAux (n : Nat) : List Byte :=
  if n = 0 then [] else toBytesBeAux (n / 256) ++ [byteOfNat n]
termination_by n
decreasing_by omega

/-- `BigUint::to_bytes_be`: minimal big-endian encoding; zero encodes as a
single zero byte. -/
def to_bytes_be (n : Nat) : List Byte := if n = 0 then [0] else toBytesBeAux n

/-- The 1024-bit MODP prime from `session.rs` (`DH_PRIME`). -/
def DH_PRIME_BYTES : List Byte := [
  0xFF, 0xFF, 0xFF, 0xFF, 0xFF, 0xFF, 0xFF, 0xFF, 0xC9, 0x0F, 0xDA, 0xA2, 0x21, 0x68, 0xC2,
  0x34, 0xC4, 0xC6, 0x62, 0x8B, 0x80, 0xDC, 0x1C, 0xD1, 0x29, 0x02, 0x4E, 0x08, 0x8A, 0x67,
  0xCC, 0x74, 0x02, 0x0B, 0xBE, 0xA6, 0x3B, 0x13, 0x9B, 0x22, 0x51, 0x4A, 0x08, 0x79, 0x8E,
  0x34, 0x04, 0xDD, 0xEF, 0x95, 0x19, 0xB3, 0xCD, 0x3A, 0x43, 0x1B, 0x30, 0x2B, 0x0A, 0x6D,
  0xF2, 0x5F, 0x14, 0x37, 0x4F, 0xE1, 0x35, 0x6D, 0x6D, 0x51, 0xC2, 0x45, 0xE4, 0x85, 0xB5,
  0x76, 0x62, 0x5E, 0x7E, 0xC6, 0xF4, 0x4C, 0x42, 0xE9, 0xA6, 0x37, 0xED, 0x6B, 0x0B, 0xFF,
  0x5C, 0xB6, 0xF4, 0x06, 0xB7, 0xED, 0xEE, 0x38, 0x6B, 0xFB, 0x5A, 0x89, 0x9F, 0xA5, 0xAE,
  0x9F, 0x24, 0x11, 0x7C, 0x4B, 0x1F, 0xE6, 0x49, 0x28, 0x66, 0x51, 0xEC, 0xE6, 0x53, 0x81,
  0xFF, 0xFF, 0xFF, 0xFF, 0xFF, 0xFF, 0xFF, 0xFF]

def DH_PRIME : Nat := from_bytes_be DH_PRIME_BYTES

/-- `Keypair::derive_shared` (src/session.rs:88-107): the shared secret
`powm(server_public, private, DH_PRIME)` is encoded big-endian, left-padded
with `vec![0; 128 - len]`, and fed through `hkdf` with `salt = None` into a
16-byte output key.  (`128 - len` cannot underflow: the secret is reduced
modulo the 128-byte prime.) -/
def derive_shared (private_key server_public_key : Nat) : List Byte :=
  let common_secret := powm server_public_key private_key DH_PRIME
  let common_secret_bytes := to_bytes_be common_secret
  let common_secret_padded :=
    List.replicate (128 - common_secret_bytes.length) 0 ++ common_secret_bytes
  hkdf common_secret_padded none 16

/-- The key derivation exactly as the specification §4.1 words it: the shared
secret `S = server_public ^ private mod prime`, its big-endian byte encoding
left-padded with leading zero bytes to exactly 128 bytes, used as HKDF-SHA256
input keying material with an empty salt and empty info, taking the first 16
output bytes as the AES key. -/
def specDerivedKey (private_key server_public_key : Nat) : List Byte :=
  let s := server_public_key ^ private_key % DH_PRIME
  let padded := List.replicate (128 - (to_bytes_be s).length) 0 ++ to_bytes_be s
  let prk := hmacSha256 [] padded
  (hkdfT prk [] 1).take 16

/-! ### Correctness of `powm` and the key-derivation refinement -/

theorem mulpow_mod (m x y k : Nat) :
    (x % m) * ((y % m) ^ k) % m = x * y ^ k % m := by
  conv_rhs => rw [Nat.mul_mod, Nat.pow_mod]
  conv_lhs => rw [Nat.mul_mod]
  rw [Nat.mod_mod_of_dvd x (dvd_refl m)]

theorem powmLoop_correct (m : Nat) (hm : 2 ≤ m) :
    ∀ e b r, r < m → powmLoop b e m r = r * b ^ e % m := by
  intro e
  induction e using Nat.strong_induction_on with
  | _ e ih =>
    intro b r hr
    by_cases he : e = 0
    · subst he
      rw [powmLoop]
      simp [Nat.mod_eq_of_lt hr]
    · rw [powmLoop, if_neg he]
      have he2 : e / 2 < e := by omega
      have hsq : (b * b) ^ (e / 2) = b ^ (2 * (e / 2)) := by
        rw [pow_mul, pow_two]
      by_cases hodd : e % 2 = 1
      · rw [if_pos hodd, ih _ he2 _ _ (Nat.mod_lt _ (by omega)),
          mulpow_mod m (r * b) (b * b) (e / 2)]
        congr 1
        rw [hsq, mul_assoc, ← pow_succ']
        congr 2
        omega
      · rw [if_neg hodd]
        rw [ih _ he2 _ _ hr]
        have hmp := mulpow_mod m r (b * b) (e / 2)
        rw [Nat.mod_eq_of_lt hr] at hmp
        rw [hmp]
        congr 1
        rw [hsq]
        congr 2
        omega

theorem powm_correct (b e m : Nat) (hm : 2 ≤ m) : powm b e m = b ^ e % m := by
  unfold powm
  rw [powmLoop_correct m hm e b 1 (by omega), Nat.one_mul]

theorem powmLoop_mod_one : ∀ e, 0 < e → ∀ b r, powmLoop b e 1 r = 0 := by
  intro e
  induction e using Nat.strong_induction_on with
  | _ e ih =>
    intro he b r
    rw [powmLoop, if_neg (by omega)]
    by_cases h2 : e / 2 = 0
    · have he1 : e = 1 := by omega
      subst he1
      rw [powmLoop]
      simp [Nat.mod_one]
    · exact ih (e / 2) (by omega) (by omega) _ _

theorem DH_PRIME_ge_two : 2 ≤ DH_PRIME := by decide

theorem hmacPadKey_zero_salt : hmacPadKey (List.replicate 32 0) = hmacPadKey [] := by
  simp [hmacPadKey, ← List.replicate_add]

theorem hmacSha256_zero_salt (msg : List Byte) :
    hmacSha256 (List.replicate 32 0) msg = hmacSha256 [] msg := by
  unfold hmacSha256
  rw [hmacPadKey_zero_salt]

/-- C2: Diffie-Hellman key derivation — `Keypair::derive_shared` computes, for
every private exponent and server public key, exactly the first 16 output
bytes of HKDF-SHA256 with empty salt and empty info applied to the shared
secret `server_public ^ private mod DH_PRIME` encoded big-endian and
left-padded with zeros to exactly 128 bytes (the prime's byte length), as the
specification §4.1 states. -/
theorem c2_derive_shared_matches_spec (private_key server_public_key : Nat) :
    derive_shared private_key server_public_key =
      specDerivedKey private_key server_public_key := by
  unfold derive_shared specDerivedKey hkdf hkdfExtract
  rw [powm_correct _ _ _ DH_PRIME_ge_two]
  simp only [Option.getD_none]
  rw [hmacSha256_zero_salt]
  norm_num [List.range_succ]

/-- C8 (amended): `powm(base, exp, modulus)` equals `base ^ exp mod modulus`
for every modulus ≥ 1, except in the single corner `modulus = 1, exp = 0`
(excluded by the second hypothesis), where `powm` returns its unreduced
initial accumulator 1 instead of 0. -/
theorem c8_powm_correct (base exp modulus : Nat) (h1 : 1 ≤ modulus)
    (h2 : modulus = 1 → 1 ≤ exp) :
    powm base exp modulus = base ^ exp % modulus := by
  by_cases hm : modulus = 1
  · subst hm
    rw [Nat.mod_one]
    exact powmLoop_mod_one exp (h2 rfl) base 1
  · exact powm_correct base exp modulus (by omega)

/-- Witness for C8 at `3 ^ 5 mod 7`. -/
theorem c8_powm_correct_witness : (1 ≤ 7) ∧ powm 3 5 7 = 3 ^ 5 % 7 :=
  ⟨by norm_num, c8_powm_correct 3 5 7 (by norm_num) (by omega)⟩

/-- C8 counterexample: with `modulus = 1` and `exp = 0` the loop never runs
and `powm` returns the initial accumulator 1, but `base ^ 0 mod 1 = 0`. -/
theorem c8_powm_counterexample :
    powm 2 0 1 = 1 ∧ 2 ^ 0 % 1 = 0 ∧ powm 2 0 1 ≠ 2 ^ 0 % 1 := by
  have h : powm 2 0 1 = 1 := by
    rw [powm, powmLoop]
    norm_num
  refine ⟨h, by norm_num, ?_⟩
  rw [h]
  norm_num

/-! ## The consent prompt protocol (`src/util.rs` `exec_prompt`) and the
gated operations built on it

Bus traffic is explicit: the daemon's method replies are passed as typed
response values, and the stream of connection items seen by `bus.iter` is a
list of `BusEvent`s.  Each modelled operation also returns the ordered list
of `BusAction`s it performs, so ordering claims ("before issuing any
request", "without invoking the prompt subsystem") are about that trace. -/

/-- A dbus `MessageItem`, restricted to the shapes the modelled code
produces or inspects. -/
inductive MessageItem where
  | bool (b : Bool)
  | str (s : String)
  | objectPath (p : String)
  | variant (v : MessageItem)
  deriving DecidableEq, Repr

/-- One item from `Connection::iter`: a signal message (with the emitting
object path and argument list), or any other connection item. -/
inductive BusEvent where
  | signal (path : String) (items : List MessageItem)
  | other
  deriving DecidableEq, Repr

/-- A bus-side action a modelled operation performs, in order. -/
inductive BusAction where
  | methodCall (path method : String)
  | subscribeSignal (path : String)
  | iterateConnection
  | promptRun (path : String)
  | getProp (path prop : String)
  deriving DecidableEq, Repr

/-- The two independent `if let`s of the `exec_prompt` loop body over one
signal's items: `items.get(0)` equal to `Bool(true)` returns the `Prompt`
error; otherwise any present `items.get(1)` is returned as the result;
otherwise the loop continues (`none`). -/
def signalOutcome (items : List MessageItem) : Option (Except SsError MessageItem) :=
  match items.get? 0 with
  | some (.bool true) => some (.error .Prompt)
  | _ =>
    match items.get? 1 with
    | some result => some (.ok result)
    | none => none

/-- The `for event in bus.iter(..)` loop of `exec_prompt`
(src/util.rs:214-228): non-signal items are skipped, the first signal with an
outcome resolves the call, and an exhausted stream is the `Prompt` error. -/
def execPromptScan : List BusEvent → Except SsError MessageItem
  | [] => .error .Prompt
  | .other :: rest => execPromptScan rest
  | .signal _ items :: rest =>
    match signalOutcome items with
    | some r => r
    | none => execPromptScan rest

/-- `util.rs` `exec_prompt` (src/util.rs:202-230): invokes the prompt's
`Prompt` method, then scans the connection's event stream.  Note that the
scan never consults `prompt`: any signal on the connection can resolve the
call. -/
def exec_prompt (prompt : String) (events : List BusEvent) :
    Except SsError MessageItem :=
  execPromptScan events

/-- The bus actions `exec_prompt` performs, in order: the `Prompt` method
call, then draining the connection's event queue.  No signal subscription is
ever established. -/
def exec_prompt_actions (prompt : String) : List BusAction :=
  [.methodCall prompt "Prompt", .iterateConnection]

/-- Whether an event resolves the `exec_prompt` loop. -/
def isCompletion (e : BusEvent) : Bool :=
  match e with
  | .other => false
  | .signal _ items => (signalOutcome items).isSome

/-- The paths on which an action trace ran the consent prompt protocol. -/
def promptRuns (trace : List BusAction) : List String :=
  trace.filterMap fun a =>
    match a with
    | .promptRun p => some p
    | _ => none

def isMethodCall (a : BusAction) : Bool :=
  match a with
  | .methodCall _ _ => true
  | _ => false

/-! ## Lock/unlock coordination and gated operations -/

inductive LockAction where
  | Lock
  | Unlock
  deriving DecidableEq, Repr

/-- A well-formed reply to `Lock`/`Unlock`: the affected object paths and
the prompt path. -/
structure LockResponse where
  affected : List String
  prompt : String
  deriving DecidableEq, Repr

/-- `Item::lock_or_unlock` (src/item.rs:96-115): one batch `Lock`/`Unlock`
call on the service naming the item; if the returned affected array is empty,
`exec_prompt` runs on the returned prompt path (its success value is
discarded, its error propagates). -/
def lock_or_unlock (item_path : String) (lock_action : LockAction)
    (res : LockResponse) (events : List BusEvent) :
    Except SsError Unit × List BusAction :=
  let lock_action_str := match lock_action with | .Lock => "Lock" | .Unlock => "Unlock"
  let call := BusAction.methodCall "/org/freedesktop/secrets" lock_action_str
  if res.affected.isEmpty then
    match exec_prompt res.prompt events with
    | .error e => (.error e, [call, .promptRun res.prompt])
    | .ok _ => (.ok (), [call, .promptRun res.prompt])
  else (.ok (), [call])

/-- The reply to `Unlock` as read by `unlock_all`. -/
structure UnlockActionResult where
  object_paths : List String
  prompt : String
  deriving DecidableEq, Repr

/-- `SecretService::unlock_all` (src/blocking/mod.rs:183-192): one batch
`Unlock` call naming all items; if the returned path array is empty the
prompt protocol runs on the returned prompt path.  (`exec_prompt_blocking`
itself is not under src/; its wait is modelled by `exec_prompt`.) -/
def unlock_all (item_paths : List String) (res : UnlockActionResult)
    (events : List BusEvent) : Except SsError Unit × List BusAction :=
  let call := BusAction.methodCall "/org/freedesktop/secrets" "Unlock"
  if res.object_paths.isEmpty then
    match exec_prompt res.prompt events with
    | .error e => (.error e, [call, .promptRun res.prompt])
    | .ok _ => (.ok (), [call, .promptRun res.prompt])
  else (.ok (), [call])

/-- `Item::delete` (src/blocking/item.rs:95-106, src/item.rs:172-189):
`ensure_unlocked` reads the `Locked` property and aborts with
`Error::Locked` when true; otherwise the `Delete` call's returned prompt path
triggers the prompt protocol exactly when it differs from `"/"`. -/
def item_delete (item_path : String) (locked : Bool) (prompt_path : String)
    (events : List BusEvent) : Except SsError Unit × List BusAction :=
  if locked then (.error .Locked, [.getProp item_path "Locked"])
  else
    let call := BusAction.methodCall item_path "Delete"
    if prompt_path ≠ "/" then
      match exec_prompt prompt_path events with
      | .error e => (.error e, [.getProp item_path "Locked", call, .promptRun prompt_path])
      | .ok _ => (.ok (), [.getProp item_path "Locked", call, .promptRun prompt_path])
    else (.ok (), [.getProp item_path "Locked", call])

/-- The reply to `CreateCollection`. -/
structure CreateCollectionResult where
  collection : String
  prompt : String
  deriving DecidableEq, Repr

/-- Parsing the prompt's result value as an object path
(src/blocking/mod.rs:140 `prompt_res.try_into()`). -/
def parsePath : MessageItem → Except SsError String
  | .objectPath p => .ok p
  | .variant (.objectPath p) => .ok p
  | _ => .error .Parse

/-- `SecretService::create_collection` (src/lib.rs:319-363,
src/blocking/mod.rs:123-153): after the `CreateCollection` call, the decision
is made on the returned collection path — when it is `"/"` the prompt
protocol runs on the returned prompt path (even if that is itself `"/"`) and
the collection path is parsed from the prompt result; otherwise the returned
path is used directly and no prompt runs.  `create_item`
(src/collection.rs:229-313) follows the same shape. -/
def create_collection (label alias_name : String) (res : CreateCollectionResult)
    (events : List BusEvent) : Except SsError String × List BusAction :=
  let call := BusAction.methodCall "/org/freedesktop/secrets" "CreateCollection"
  if res.collection = "/" then
    match exec_prompt res.prompt events with
    | .error e => (.error e, [call, .promptRun res.prompt])
    | .ok v => (parsePath v, [call, .promptRun res.prompt])
  else (.ok res.collection, [call])

def isSubscribe (a : BusAction) : Bool :=
  match a with
  | .subscribeSignal _ => true
  | _ => false

theorem execPromptScan_skip (e : BusEvent) (h : isCompletion e = false)
    (es : List BusEvent) : execPromptScan (e :: es) = execPromptScan es := by
  cases e with
  | other => rfl
  | signal p items =>
    cases hso : signalOutcome items with
    | some r => simp [isCompletion, hso] at h
    | none => simp [execPromptScan, hso]

/-- C3 counterexample: `exec_prompt` invoked on prompt `p1` consumes a
completion signal emitted by a different prompt `p2` — it returns that
signal's payload as the result, and a dismissal of `p2` likewise aborts the
`p1` call — so the notification it waits for does not belong to the prompt
reference it was invoked on. -/
theorem c3_foreign_signal_consumed :
    exec_prompt "/org/freedesktop/secrets/prompt/p1"
        [.signal "/org/freedesktop/secrets/prompt/p2" [.bool false, .str "res"]] =
      .ok (.str "res") ∧
    exec_prompt "/org/freedesktop/secrets/prompt/p1"
        [.signal "/org/freedesktop/secrets/prompt/p2" [.bool true, .str "res"]] =
      .error .Prompt ∧
    "/org/freedesktop/secrets/prompt/p2" ≠ "/org/freedesktop/secrets/prompt/p1" :=
  ⟨rfl, rfl, by decide⟩

/-- C3 (amended): every run of `exec_prompt` resolves on the first
completion-shaped signal on the connection, regardless of which prompt
emitted it; if that signal's dismissed flag is true the call returns the
`Prompt` (Dismissed) error and its payload is never interpreted or returned;
if the flag is false the payload is returned.  Exactly that one notification
is consumed; earlier non-resolving events are skipped. -/
theorem c3_first_completion_resolves (prompt : String) (pre : List BusEvent)
    (path : String) (d : Bool) (payload : MessageItem) (rest : List MessageItem)
    (post : List BusEvent) (hpre : ∀ e ∈ pre, isCompletion e = false) :
    exec_prompt prompt (pre ++ .signal path (.bool d :: payload :: rest) :: post) =
      if d then .error .Prompt else .ok payload := by
  induction pre with
  | nil =>
    cases d with
    | false => rfl
    | true => rfl
  | cons e pre ih =>
    have h1 : isCompletion e = false := hpre e (by simp)
    show execPromptScan ((e :: pre) ++ _) = _
    rw [List.cons_append, execPromptScan_skip e h1]
    exact ih fun e' he' => hpre e' (by simp [he'])

/-- Witness for C3 (amended): two non-resolving events are skipped, then a
dismissal resolves the call with the `Prompt` error. -/
theorem c3_first_completion_resolves_witness :
    (∀ e ∈ [BusEvent.other, .signal "/x" []], isCompletion e = false) ∧
      exec_prompt "/p1"
          ([BusEvent.other, .signal "/x" []] ++
            .signal "/p2" (.bool true :: .str "payload" :: []) :: []) =
        .error .Prompt := by
  refine ⟨by decide, ?_⟩
  have h := c3_first_completion_resolves "/p1" [BusEvent.other, .signal "/x" []]
    "/p2" true (.str "payload") [] [] (by decide)
  simpa using h

/-- C7 counterexample: the full action trace of a concrete `exec_prompt` run
is the `Prompt` method call followed by draining the connection queue — it
contains no signal-subscription action at all, so no subscription is
established before the prompt's show action is invoked. -/
theorem c7_no_subscription_on_concrete_run :
    exec_prompt_actions "/org/freedesktop/secrets/prompt/p1" =
      [.methodCall "/org/freedesktop/secrets/prompt/p1" "Prompt", .iterateConnection] ∧
    (exec_prompt_actions "/org/freedesktop/secrets/prompt/p1").filter isSubscribe = [] :=
  ⟨rfl, rfl⟩

/-- C7 (amended): `exec_prompt` performs no signal subscription; its first
bus action is the `Prompt` invocation, followed only by draining the
connection's event queue, and a completion signal delivered to the connection
after the invoke is consumed from that queue (it is not missed). -/
theorem c7_invoke_first_no_subscription (prompt : String) :
    (exec_prompt_actions prompt).head? = some (.methodCall prompt "Prompt") ∧
    (exec_prompt_actions prompt).filter isSubscribe = [] ∧
    ∀ (path : String) (d : Bool) (payload : MessageItem) (rest : List MessageItem)
      (post : List BusEvent),
      exec_prompt prompt (.signal path (.bool d :: payload :: rest) :: post) =
        if d then .error .Prompt else .ok payload := by
  refine ⟨rfl, rfl, ?_⟩
  intro path d payload rest post
  cases d with
  | false => rfl
  | true => rfl

/-- C4 counterexample: in `create_collection`, when the daemon replies with
collection path `"/"` and prompt path `"/"`, the consent prompt protocol runs
on `"/"` (the claim says a `"/"` prompt path never triggers it); and when it
replies with a real collection path and a non-`"/"` prompt path, the protocol
does not run (the claim says a non-`"/"` prompt path always triggers it). -/
theorem c4_create_collection_ignores_prompt_path :
    promptRuns (create_collection "Test" "" ⟨"/", "/"⟩ []).2 = ["/"] ∧
    promptRuns (create_collection "Test" ""
        ⟨"/org/freedesktop/secrets/collection/Test", "/p9"⟩ []).2 = [] :=
  ⟨rfl, rfl⟩

/-- C4 (amended): for `delete`, a returned prompt path `"/"` never triggers
the consent prompt protocol and any other prompt path always does; for
`create_collection` (and `create_item`, which follows the same shape) the
decision is made on the returned created-object path instead — the protocol
runs, on the returned prompt path even when that path is `"/"`, exactly when
the created path is `"/"`. -/
theorem c4_prompt_sentinel (item_path prompt_path : String) (events : List BusEvent)
    (label alias_name : String) (res : CreateCollectionResult)
    (events2 : List BusEvent) :
    promptRuns (item_delete item_path false prompt_path events).2 =
      (if prompt_path = "/" then [] else [prompt_path]) ∧
    promptRuns (create_collection label alias_name res events2).2 =
      (if res.collection = "/" then [res.prompt] else []) := by
  constructor
  · by_cases h : prompt_path = "/"
    · simp [item_delete, h, promptRuns]
    · cases hE : exec_prompt prompt_path events <;>
        simp [item_delete, h, hE, promptRuns]
  · by_cases h : res.collection = "/"
    · cases hE : exec_prompt res.prompt events2 <;>
        simp [create_collection, h, hE, promptRuns]
    · simp [create_collection, h, promptRuns]

/-- C5: `lock_or_unlock` and `unlock_all` each send exactly one batch
`Lock`/`Unlock` request; for every response, a non-empty affected set
completes `Ok` without invoking the prompt subsystem, while an empty affected
set runs the consent prompt protocol on the returned prompt reference, with a
Dismissed outcome propagated to the caller as the `Prompt` error. -/
theorem c5_lock_unlock_decision (item_path : String) (lock_action : LockAction)
    (res : LockResponse) (events : List BusEvent) (item_paths : List String)
    (ures : UnlockActionResult) (events2 : List BusEvent) :
    (((lock_or_unlock item_path lock_action res events).2.filter isMethodCall).length = 1 ∧
      (res.affected ≠ [] →
        (lock_or_unlock item_path lock_action res events).1 = .ok () ∧
        promptRuns (lock_or_unlock item_path lock_action res events).2 = []) ∧
      (res.affected = [] →
        promptRuns (lock_or_unlock item_path lock_action res events).2 = [res.prompt] ∧
        (exec_prompt res.prompt events = .error .Prompt →
          (lock_or_unlock item_path lock_action res events).1 = .error .Prompt))) ∧
    (((unlock_all item_paths ures events2).2.filter isMethodCall).length = 1 ∧
      (ures.object_paths ≠ [] →
        (unlock_all item_paths ures events2).1 = .ok () ∧
        promptRuns (unlock_all item_paths ures events2).2 = []) ∧
      (ures.object_paths = [] →
        promptRuns (unlock_all item_paths ures events2).2 = [ures.prompt] ∧
        (exec_prompt ures.prompt events2 = .error .Prompt →
          (unlock_all item_paths ures events2).1 = .error .Prompt))) := by
  constructor
  · refine ⟨?_, ?_, ?_⟩
    · by_cases h : res.affected = [] <;>
        cases hE : exec_prompt res.prompt events <;>
          simp [lock_or_unlock, h, hE, isMethodCall]
    · intro h
      cases hE : exec_prompt res.prompt events <;>
        simp [lock_or_unlock, h, hE, promptRuns]
    · intro h
      refine ⟨?_, ?_⟩
      · cases hE : exec_prompt res.prompt events <;>
          simp [lock_or_unlock, h, hE, promptRuns]
      · intro hE
        simp [lock_or_unlock, h, hE]
  · refine ⟨?_, ?_, ?_⟩
    · by_cases h : ures.object_paths = [] <;>
        cases hE : exec_prompt ures.prompt events2 <;>
          simp [unlock_all, h, hE, isMethodCall]
    · intro h
      cases hE : exec_prompt ures.prompt events2 <;>
        simp [unlock_all, h, hE, promptRuns]
    · intro h
      refine ⟨?_, ?_⟩
      · cases hE : exec_prompt ures.prompt events2 <;>
          simp [unlock_all, h, hE, promptRuns]
      · intro hE
        simp [unlock_all, h, hE]

/-- Witness for C5: a dismissed prompt on an empty affected set propagates as
the `Prompt` error, and a non-empty affected set completes without running
any prompt. -/
theorem c5_lock_unlock_decision_witness :
    (lock_or_unlock "/org/fd/secrets/item/i1" .Unlock ⟨[], "/pr"⟩
        [.signal "/pr" [.bool true, .str "x"]]).1 = .error .Prompt ∧
    promptRuns (unlock_all ["/org/fd/secrets/item/i1"]
        ⟨["/org/fd/secrets/item/i1"], "/"⟩ []).2 = [] := by
  have h := c5_lock_unlock_decision "/org/fd/secrets/item/i1" .Unlock ⟨[], "/pr"⟩
    [.signal "/pr" [.bool true, .str "x"]] ["/org/fd/secrets/item/i1"]
    ⟨["/org/fd/secrets/item/i1"], "/"⟩ []
  exact ⟨(h.1.2.2 rfl).2 rfl, (h.2.2.1 (by decide)).2⟩

/-- C10: deleting an item whose `Locked` property reads true fails with the
`Locked` error right after the property read — the trace contains no `Delete`
method call and no prompt run, so the daemon-side object is untouched. -/
theorem c10_delete_locked_refuses (item_path prompt_path : String)
    (events : List BusEvent) :
    (item_delete item_path true prompt_path events).1 = .error .Locked ∧
    (∀ m, BusAction.methodCall item_path m ∉
      (item_delete item_path true prompt_path events).2) ∧
    promptRuns (item_delete item_path true prompt_path events).2 = [] ∧
    (item_delete item_path true prompt_path events).2 =
      [.getProp item_path "Locked"] := by
  refine ⟨rfl, ?_, rfl, rfl⟩
  intro m hm
  simp [item_delete] at hm

end SecretService